import Mathlib

/-!
# go-crawler: a shallow embedding of `crawler.go`

The development follows the source file top to bottom.

* Go `string` values are Lean `String`s, read as their sequence of runes
  (`String.data`); the only string operations the crawler performs are
  equality, concatenation, `len(..) == 0`, `strings.TrimSuffix` and a
  regular-expression match, all of which are defined on that sequence.
* Go `map[string]V` values are total functions `String → Option V`
  (`none` = key absent).
* The two external collaborators are parameters: the transport (`http.Get`)
  is a function `Web` from URLs to an optional token stream, and the HTML
  tokenizer is the list of tokens it yields before `ErrorToken`.
* One call of `Crawl` touches the shared maps only inside its critical
  section (`mux.Lock()` .. deferred `Unlock()`), and `Fetch` reads nothing
  shared, so a task is one atomic transition of the shared state; the
  interleavings of the goroutines are the orders in which pending tasks take
  their transition (`Step`).
* Two transition systems are given. In `Step` the web is fixed for the whole
  crawl, so `Fetch` on one URL gives the same result every time. In `LiveStep`
  every step meets its own web, so a URL may fail at one fetch and succeed at
  the next, and the history records the outcome of every `Fetch` call.
* The depth is an `Int`; the only arithmetic on it is `depth - 1` under
  `depth > 0`, which cannot overflow a machine `int`.
-/

namespace GoCrawler

/-! ## Regular expressions (the fragment `regexp.MustCompile` is given) -/

/-- Regular expressions over runes: the constructs used by the pattern of
`validID`, closed under the derivative operation. -/
inductive Regexp where
  | never : Regexp
  | empty : Regexp
  | lit (c : Char) : Regexp
  | noneOf (cs : List Char) : Regexp
  | cat (r s : Regexp) : Regexp
  | alt (r s : Regexp) : Regexp
  | star (r : Regexp) : Regexp
  deriving DecidableEq, Repr

namespace Regexp

/-- The postfix `+` of the pattern language: one or more repetitions. -/
def plus (r : Regexp) : Regexp := cat r (star r)

/-- Whether the expression accepts the empty input. -/
def nullable : Regexp → Bool
  | never => false
  | empty => true
  | lit _ => false
  | noneOf _ => false
  | cat r s => nullable r && nullable s
  | alt r s => nullable r || nullable s
  | star _ => true

/-- Brzozowski derivative of an expression by one rune. -/
def deriv : Regexp → Char → Regexp
  | never, _ => never
  | empty, _ => never
  | lit a, c => if a = c then empty else never
  | noneOf cs, c => if c ∈ cs then never else empty
  | cat r s, c =>
      if nullable r then alt (cat (deriv r c) s) (deriv s c) else cat (deriv r c) s
  | alt r s, c => alt (deriv r c) (deriv s c)
  | star r, c => cat (deriv r c) (star r)

/-- Whole-input match of a rune sequence. -/
def matchRunes : Regexp → List Char → Bool
  | r, [] => nullable r
  | r, c :: cs => matchRunes (deriv r c) cs

/-- Method `(*Regexp).MatchString` for a pattern written `^body\z`: the two
anchors make the unanchored search a match of the whole input against `body`. -/
def MatchString (body : Regexp) (s : String) : Bool := matchRunes body s.data

end Regexp

/-- The pattern of crawler.go line 100, `^/[^/#][^#]+\z`, without its anchors. -/
def validID : Regexp :=
  .cat (.lit '/') (.cat (.noneOf ['/', '#']) (Regexp.plus (.noneOf ['#'])))

/-! ## Tokens (package `golang.org/x/net/html`) -/

/-- The token types a tokenizer reports before the end of its input.
`ErrorToken` is not an element of a stream: it is what `Next` returns once the
stream is exhausted, and keeps returning from then on. -/
inductive TokenType where
  | TextToken
  | StartTagToken
  | EndTagToken
  | SelfClosingTagToken
  | CommentToken
  | DoctypeToken
  deriving DecidableEq, Repr

/-- Type `html.Attribute`. -/
structure Attribute where
  Namespace : String
  Key : String
  Val : String
  deriving DecidableEq, Repr

/-- Type `html.Token`; its field `Type` is `Type_` here, and the interned
`DataAtom` is not read by the crawler. -/
structure Token where
  Type_ : TokenType
  Data : String
  Attr : List Attribute
  deriving DecidableEq, Repr

/-! ## Pages and `Fetch` -/

/-- Type `webPage`. -/
structure webPage where
  title : String
  urlsInDomain : List String
  urlsOutDomain : List String
  deriving DecidableEq, Repr

/-- The zero value `var page webPage`. -/
def webPage.zero : webPage := { title := "", urlsInDomain := [], urlsOutDomain := [] }

/-- The attribute loop of the `case "a"` branch (lines 110-119): the first
attribute whose key is `href` is classified by `validID` and the loop breaks. -/
def scanAttrs : List Attribute → webPage → webPage
  | [], page => page
  | a :: rest, page =>
      if a.Key = "href" then
        if validID.MatchString a.Val then
          { page with urlsInDomain := page.urlsInDomain ++ [a.Val] }
        else
          { page with urlsOutDomain := page.urlsOutDomain ++ [a.Val] }
      else scanAttrs rest page

/-- The token loop of `Fetch` (lines 105-130). The list holds the tokens still
to come; the empty list is `ErrorToken`, where the loop returns the page. In
the `title` branch `z.Next()` consumes one more token and `z.Token().Data` is
its data, which is the empty string when that token is `ErrorToken`. -/
def fetchLoop : List Token → webPage → webPage
  | [], page => page
  | t :: rest, page =>
      if t.Type_ = .StartTagToken then
        if t.Data = "a" then fetchLoop rest (scanAttrs t.Attr page)
        else if t.Data = "title" then
          if page.title.length = 0 then
            match rest with
            | [] => { page with title := "" }
            | n :: rest2 => fetchLoop rest2 { page with title := n.Data }
          else fetchLoop rest page
        else fetchLoop rest page
      else fetchLoop rest page

/-- The transport: `http.Get(url)` either fails (`none`) or yields a body,
given here as the token stream the tokenizer reads from it. -/
abbrev Web := String → Option (List Token)

/-- Method `webSite.Fetch` (lines 87-131). -/
def Fetch (web : Web) (url : String) : Except String webPage :=
  match web url with
  | none => .error ("not found: " ++ url)
  | some ts => .ok (fetchLoop ts webPage.zero)

/-! ## The site and `Crawl` -/

/-- Type `pageMap`, `map[string]*webPage`. -/
abbrev pageMap := String → Option webPage

/-- Type `safeBoolMap`: the `urls` map; the mutex `mux` has no value of its
own here, its critical section being the atomic part of `Crawl`. -/
structure safeBoolMap where
  urls : String → Option Bool

/-- Type `webSite`. -/
structure webSite where
  domain : String
  pages : pageMap
  urlsInDomain : safeBoolMap
  urlsOutDomain : safeBoolMap

/-- Map assignment `m[k] = v`. -/
def mapSet {V : Type} (m : String → Option V) (k : String) (v : V) : String → Option V :=
  fun x => if x = k then some v else m x

/-- Builtin `delete(m, k)`. -/
def mapDelete {V : Type} (m : String → Option V) (k : String) : String → Option V :=
  fun x => if x = k then none else m x

/-- The value `make(map[string]V)`. -/
def mapEmpty {V : Type} : String → Option V := fun _ => none

/-- Function `strings.HasSuffix`. -/
def HasSuffix (s suffix : String) : Bool := suffix.data.isSuffixOf s.data

/-- Function `strings.TrimSuffix`: `s` without the trailing `suffix`, or `s`
itself when it does not end with it. -/
def TrimSuffix (s suffix : String) : String :=
  if HasSuffix s suffix then ⟨s.data.take (s.data.length - suffix.data.length)⟩ else s

/-- The fan-out loop of `Crawl` (lines 76-83) over the in-domain links still to
visit: the registry after the loop and the `go Crawl(u, depth-1, ..)` calls it
made, in order. -/
def fanOut (domain : String) (depth : Int) :
    List String → (String → Option Bool) → (String → Option Bool) × List (String × Int)
  | [], urls => (urls, [])
  | u :: rest, urls =>
      let u2 := TrimSuffix domain "/" ++ u
      match urls u2 with
      | none =>
          let r := fanOut domain depth rest (mapSet urls u2 false)
          (r.1, (u2, depth - 1) :: r.2)
      | some _ => fanOut domain depth rest urls

/-- What one call of `Crawl` does: the site it leaves, the child tasks it
spawned (URL and depth), and the URLs it called `Fetch` on. -/
structure CrawlResult where
  site : webSite
  spawned : List (String × Int)
  fetched : List String

/-- Function `Crawl` (lines 58-85). -/
def Crawl (web : Web) (url : String) (depth : Int) (site : webSite) : CrawlResult :=
  if depth ≤ 0 then
    { site := site, spawned := [], fetched := [] }
  else
    match Fetch web url with
    | .error _ =>
        { site := { site with urlsInDomain := ⟨mapDelete site.urlsInDomain.urls url⟩ },
          spawned := [], fetched := [url] }
    | .ok page =>
        let r := fanOut site.domain depth page.urlsInDomain
          (mapSet site.urlsInDomain.urls url true)
        { site := { site with pages := mapSet site.pages url page, urlsInDomain := ⟨r.1⟩ },
          spawned := r.2, fetched := [url] }

/-! ## The crawl as a transition system -/

/-- A crawl in progress: the shared site, the tasks spawned and not yet run
(the goroutines counted by the wait group), and the log of `Fetch` calls. -/
structure Crawler where
  site : webSite
  tasks : List (String × Int)
  fetched : List String

/-- The pending task at position `i` runs: it leaves the pool, its effect on the
site is that of `Crawl`, and its children join the pool. -/
def runTask (web : Web) (i : Nat) (s : Crawler) : Option Crawler :=
  match s.tasks[i]? with
  | none => none
  | some t =>
      let r := Crawl web t.1 t.2 s.site
      some { site := r.site, tasks := s.tasks.eraseIdx i ++ r.spawned,
             fetched := s.fetched ++ r.fetched }

/-- One step of the crawl: some pending task runs. -/
def Step (web : Web) (s s2 : Crawler) : Prop := ∃ i, runTask web i s = some s2

/-- The states a crawl can reach from `s0` under any interleaving. -/
def Reachable (web : Web) (s0 s : Crawler) : Prop := Relation.ReflTransGen (Step web) s0 s

/-- The state `main` sets up (lines 135-143) for a seed and a depth: an empty
site for the domain and the one task `Crawl(domain, depth, ..)`. -/
def start (domain : String) (depth : Int) : Crawler :=
  { site := { domain := domain, pages := mapEmpty, urlsInDomain := ⟨mapEmpty⟩,
              urlsOutDomain := ⟨mapEmpty⟩ },
    tasks := [(domain, depth)], fetched := [] }

/-- The initial state of `main` itself. -/
def mainStart : Crawler := start "https://golang.org/" 3

/-- Runs the tasks at the given pool positions one after the other (a position
that names no task is skipped): one concrete interleaving. -/
def runSchedule (web : Web) : List Nat → Crawler → Crawler
  | [], s => s
  | i :: rest, s =>
      match runTask web i s with
      | none => runSchedule web rest s
      | some s2 => runSchedule web rest s2

/-! ## Vocabulary of the specification -/

/-- The value of the first attribute whose key is `href`, if there is one. -/
def firstHref (attrs : List Attribute) : Option String :=
  (attrs.find? (fun a => a.Key = "href")).map (fun a => a.Val)

/-- The in-domain rule as the specification words it: the value begins with
`/`, its second character is neither `/` nor `#`, and it contains no `#`. -/
def lexicalRule (s : String) : Prop :=
  s.data.head? = some '/' ∧ s.data.get? 1 ≠ some '/' ∧ s.data.get? 1 ≠ some '#' ∧
    '#' ∉ s.data

instance (s : String) : Decidable (lexicalRule s) := by
  unfold lexicalRule; infer_instance

/-- The values the specification excludes from the in-domain list: those that
do not begin with `/`, those that begin with `//`, and those containing `#`. -/
def excluded (s : String) : Prop :=
  s.data.head? ≠ some '/' ∨ s.data.take 2 = ['/', '/'] ∨ '#' ∈ s.data

instance (s : String) : Decidable (excluded s) := by
  unfold excluded; infer_instance

/-- An anchor start token `<a href=h>`. -/
def anchor (h : String) : Token :=
  { Type_ := .StartTagToken, Data := "a", Attr := [⟨"", "href", h⟩] }

/-- Whether a token is a start tag with the given name. -/
def isStart (name : String) (t : Token) : Bool :=
  t.Type_ = .StartTagToken ∧ t.Data = name

/-- The first-`href` values of the anchor start tokens of a stream that carry
an `href`, in stream order. -/
def hrefs (ts : List Token) : List String :=
  (ts.filter (isStart "a")).filterMap (fun t => firstHref t.Attr)

/-- What the tokenizer can report right after a `<title>` start tag. It scans
the content of `title` as raw character data up to the closing tag, so the next
token is that text when there is some, or else the end tag `</title>`. -/
def titleBody (n : Token) : Bool :=
  (n.Type_ = .TextToken ∧ n.Data ≠ "") ∨ (n.Type_ = .EndTagToken ∧ n.Data = "title")

/-- The streams the tokenizer yields: every `title` start token is followed by
the end of the input or by a `titleBody` token. -/
def titleIsRCDATA : List Token → Bool
  | [] => true
  | t :: rest =>
      (if isStart "title" t then
        match rest with
        | [] => true
        | n :: _ => titleBody n
      else true) && titleIsRCDATA rest

/-- The token immediately following the first `title` start token. -/
def afterFirstTitle : List Token → Option Token
  | [] => none
  | t :: rest => if isStart "title" t then rest.head? else afterFirstTitle rest

/-- What the `title` branch stores on a tokenizer stream: the `Data` field of the
token that follows the first `title` start token, whatever its type, or the
empty string when the input ends there or has no such tag. -/
def capturedTitle (ts : List Token) : String :=
  ((afterFirstTitle ts).map (fun n => n.Data)).getD ""

/-- The text content of a token: the data of a text token, and nothing for a
token of any other type. -/
def tokenText (n : Token) : String :=
  if n.Type_ = .TextToken then n.Data else ""

/-- The title as the specification words it: the text of the token that follows
the first `title` start token, or the empty string. -/
def specTitle (ts : List Token) : String :=
  ((afterFirstTitle ts).map tokenText).getD ""

/-- The token stream of the document `<title></title><title>Second</title>`: the
first `title` element is empty, so its start tag is followed by its end tag. -/
def emptyTitlePage : List Token :=
  [ ⟨.StartTagToken, "title", []⟩, ⟨.EndTagToken, "title", []⟩,
    ⟨.StartTagToken, "title", []⟩, ⟨.TextToken, "Second", []⟩, ⟨.EndTagToken, "title", []⟩ ]

/-- A page with a title, an anchor with two `href`s, an anchor without `href`,
an out-domain anchor and a second title. -/
def samplePage : List Token :=
  [ ⟨.StartTagToken, "html", []⟩,
    ⟨.StartTagToken, "title", []⟩, ⟨.TextToken, "First", []⟩, ⟨.EndTagToken, "title", []⟩,
    ⟨.StartTagToken, "a", [⟨"", "class", "nav"⟩, ⟨"", "href", "/docs/page"⟩, ⟨"", "href", "/zzz"⟩]⟩,
    ⟨.StartTagToken, "a", [⟨"", "name", "top"⟩]⟩,
    ⟨.TextToken, "text", []⟩,
    anchor "https://other.org/",
    ⟨.EndTagToken, "a", []⟩,
    ⟨.StartTagToken, "title", []⟩, ⟨.TextToken, "Second", []⟩, ⟨.EndTagToken, "title", []⟩,
    anchor "/pkg/",
    ⟨.EndTagToken, "html", []⟩ ]

/-- The absolute form of an in-domain link: the domain without one trailing
`/`, followed by the link. -/
def resolve (domain link : String) : String := TrimSuffix domain "/" ++ link

/-- The first occurrence of every element of a list, in order. -/
def firstOccurrences : List String → List String
  | [] => []
  | x :: xs => x :: (firstOccurrences xs).filter (fun y => y ≠ x)

/-- Reachability in the link graph: `Hops web domain k u` holds when `u` is
`k` in-domain links away from the seed `domain`, each link taken from the page
fetched at the previous URL and resolved against the domain. -/
inductive Hops (web : Web) (domain : String) : Nat → String → Prop where
  | seed : Hops web domain 0 domain
  | link (k : Nat) (v : String) (p : webPage) (l : String) :
      Hops web domain k v → Fetch web v = .ok p → l ∈ p.urlsInDomain →
      Hops web domain (k + 1) (resolve domain l)

/-- A small site: the seed links to `/bb` and `/cc`, `/cc` links to `/bb` and
to itself, and `/bb` cannot be fetched. -/
def sampleWeb : Web := fun u =>
  if u = "https://golang.org/" then some [anchor "/bb", anchor "/cc", anchor "/bb"]
  else if u = "https://golang.org/cc" then some [anchor "/cc", anchor "/bb"]
  else none

/-- The depth invariant of a crawl started on `domain` with depth `D`: a pending
task that is `k` links away from the seed carries depth `D - k`, and a recorded
URL is fewer than `D` links away. -/
structure Bounded (web : Web) (domain : String) (D : Int) (s : Crawler) : Prop where
  dom : s.site.domain = domain
  tasks : ∀ t ∈ s.tasks, ∃ k : Nat, t.2 = D - k ∧ Hops web domain k t.1
  pages : ∀ u, s.site.pages u ≠ none → ∃ k : Nat, (k : Int) < D ∧ Hops web domain k u

/-- The termination measure of a crawl: the multiset of the depths still to be
spent by the pending tasks. -/
def budget (s : Crawler) : Multiset Nat := (s.tasks.map (fun t => t.2.toNat) : List Nat)

/-! ## The crawl on a web that changes -/

/-- Whether a call of `Fetch` returned a page (`err == nil`). -/
def succeeded : Except String webPage → Bool
  | .ok _ => true
  | .error _ => false

/-- A crawl in progress together with the history of its `Fetch` calls: the URL
of each call and whether it succeeded, oldest first. -/
structure Live where
  crawler : Crawler
  events : List (String × Bool)

/-- The pending task at position `i` runs while the web is `web`: the crawl
moves as `runTask` says, and each URL the task called `Fetch` on is appended to
the history with the outcome of that call. -/
def liveTask (web : Web) (i : Nat) (x : Live) : Option Live :=
  match x.crawler.tasks[i]?, runTask web i x.crawler with
  | some t, some s2 =>
      some { crawler := s2,
             events := x.events ++
               (Crawl web t.1 t.2 x.crawler.site).fetched.map
                 (fun u => (u, succeeded (Fetch web u))) }
  | _, _ => none

/-- One step of the crawl on a changing web: some pending task runs, against
whatever the web is at that moment. -/
def LiveStep (x y : Live) : Prop := ∃ web i, liveTask web i x = some y

/-- The states a crawl can reach under any interleaving and any evolution of
the web. -/
def LiveReachable (x0 x : Live) : Prop := Relation.ReflTransGen LiveStep x0 x

/-- The state `main` sets up, with an empty history. -/
def liveStart (domain : String) (depth : Int) : Live :=
  { crawler := start domain depth, events := [] }

/-- Runs the tasks at the given pool positions one after the other, each against
the web given with it (a position that names no task is skipped). -/
def liveRun : List (Web × Nat) → Live → Live
  | [], x => x
  | c :: rest, x =>
      match liveTask c.1 c.2 x with
      | none => liveRun rest x
      | some y => liveRun rest y

/-- The state `main` itself sets up, with an empty history. -/
def mainLive : Live := liveStart "https://golang.org/" 3

/-- The site of `sampleWeb` after `/bb` came back: it is a page without links. -/
def repairedWeb : Web := fun u =>
  if u = "https://golang.org/bb" then some [] else sampleWeb u

/-- The claim invariant of a crawl on a changing web: either nothing has run
yet, or every pending task holds its URL as a `false` registry entry; no two
pending tasks share a URL; a URL with a successful fetch in the history is a
`true` registry entry; no fetch of a URL follows a successful fetch of it; and
a URL has at most one successful fetch. -/
structure Settled (domain : String) (D : Int) (x : Live) : Prop where
  pend : (x.events = [] ∧ x.crawler.tasks = [(domain, D)]) ∨
    (∀ t ∈ x.crawler.tasks, x.crawler.site.urlsInDomain.urls t.1 = some false)
  nodup : (x.crawler.tasks.map Prod.fst).Nodup
  done : ∀ u, (u, true) ∈ x.events → x.crawler.site.urlsInDomain.urls u = some true
  last : ∀ u e1 e2, x.events = e1 ++ (u, true) :: e2 → ∀ b, (u, b) ∉ e2
  once : ∀ u, x.events.count (u, true) ≤ 1

/-! ## Theorems -/

/-! ### The pattern of `validID` -/

namespace Regexp

theorem matchRunes_never (l : List Char) : matchRunes never l = false := by
  induction l with
  | nil => rfl
  | cons c l ih => simpa [matchRunes, deriv] using ih

theorem matchRunes_alt (r s : Regexp) (l : List Char) :
    matchRunes (alt r s) l = (matchRunes r l || matchRunes s l) := by
  induction l generalizing r s with
  | nil => rfl
  | cons c l ih => simp [matchRunes, deriv, ih]

theorem matchRunes_cat_never (r : Regexp) (l : List Char) :
    matchRunes (cat never r) l = false := by
  induction l with
  | nil => rfl
  | cons c l ih => simpa [matchRunes, deriv, nullable] using ih

theorem matchRunes_cat_empty (r : Regexp) (l : List Char) :
    matchRunes (cat empty r) l = matchRunes r l := by
  cases l with
  | nil => simp [matchRunes, nullable]
  | cons c l => simp [matchRunes, deriv, nullable, matchRunes_alt, matchRunes_cat_never]

theorem matchRunes_cat_lit (a : Char) (r : Regexp) (l : List Char) :
    matchRunes (cat (lit a) r) l = true ↔ ∃ t, l = a :: t ∧ matchRunes r t = true := by
  cases l with
  | nil => simp [matchRunes, nullable]
  | cons c l =>
    by_cases h : a = c
    · subst h; simp [matchRunes, deriv, nullable, matchRunes_cat_empty]
    · simp [matchRunes, deriv, nullable, h, matchRunes_cat_never]
      intro h2; exact absurd h2.symm h

theorem matchRunes_cat_noneOf (cs : List Char) (r : Regexp) (l : List Char) :
    matchRunes (cat (noneOf cs) r) l = true ↔
      ∃ c t, l = c :: t ∧ c ∉ cs ∧ matchRunes r t = true := by
  cases l with
  | nil => simp [matchRunes, nullable]
  | cons c l =>
    by_cases h : c ∈ cs
    · simp [matchRunes, deriv, nullable, h, matchRunes_cat_never]
    · simp only [matchRunes, deriv, nullable, h, matchRunes_cat_empty, if_false, Bool.false_eq_true]
      constructor
      · intro hm; exact ⟨c, l, rfl, h, hm⟩
      · rintro ⟨c2, t, h1, -, hm⟩
        cases h1; exact hm

theorem matchRunes_star_noneOf (cs : List Char) (l : List Char) :
    matchRunes (star (noneOf cs)) l = true ↔ ∀ c ∈ l, c ∉ cs := by
  induction l with
  | nil => simp [matchRunes, nullable]
  | cons c l ih =>
    by_cases h : c ∈ cs
    · simp [matchRunes, deriv, nullable, h, matchRunes_cat_never]
    · simp [matchRunes, deriv, nullable, h, matchRunes_cat_empty, ih]

end Regexp

theorem validID_iff (s : String) :
    validID.MatchString s = true ↔
      ∃ c t, s.data = '/' :: c :: t ∧ c ≠ '/' ∧ c ≠ '#' ∧ t ≠ [] ∧ '#' ∉ t := by
  unfold Regexp.MatchString validID Regexp.plus
  rw [Regexp.matchRunes_cat_lit]
  constructor
  · rintro ⟨t, ht, hm⟩
    rw [Regexp.matchRunes_cat_noneOf] at hm
    obtain ⟨c, t2, rfl, hc, hm⟩ := hm
    rw [Regexp.matchRunes_cat_noneOf] at hm
    obtain ⟨d, t3, rfl, hd, hm⟩ := hm
    rw [Regexp.matchRunes_star_noneOf] at hm
    refine ⟨c, d :: t3, ht, ?_, ?_, by simp, ?_⟩
    · intro h; apply hc; simp [h]
    · intro h; apply hc; simp [h]
    · intro h
      rcases List.mem_cons.1 h with h | h
      · apply hd; simp [← h]
      · exact hm _ h (by simp)
  · rintro ⟨c, t, hs, h1, h2, h3, h4⟩
    refine ⟨c :: t, hs, ?_⟩
    rw [Regexp.matchRunes_cat_noneOf]
    refine ⟨c, t, rfl, by simp [h1, h2], ?_⟩
    cases t with
    | nil => exact absurd rfl h3
    | cons d t3 =>
      rw [Regexp.matchRunes_cat_noneOf]
      refine ⟨d, t3, rfl, ?_, ?_⟩
      · intro h; apply h4; simp at h; simp [h]
      · rw [Regexp.matchRunes_star_noneOf]
        intro x hx hx2
        apply h4; simp at hx2; simp [hx2] at hx; simp [hx]

theorem validID_iff_rule (s : String) :
    validID.MatchString s = true ↔ (lexicalRule s ∧ 3 ≤ s.length) := by
  rw [validID_iff]
  rcases s with ⟨l⟩
  show (∃ c t, l = '/' :: c :: t ∧ c ≠ '/' ∧ c ≠ '#' ∧ t ≠ [] ∧ '#' ∉ t) ↔
    ((l.head? = some '/' ∧ l.get? 1 ≠ some '/' ∧ l.get? 1 ≠ some '#' ∧ '#' ∉ l) ∧
      3 ≤ l.length)
  constructor
  · rintro ⟨c, t, rfl, h1, h2, h3, h4⟩
    cases t with
    | nil => exact absurd rfl h3
    | cons d t =>
      refine ⟨⟨rfl, by simpa using fun h => h1 h, by simpa using fun h => h2 h, ?_⟩, by simp⟩
      intro h
      simp only [List.mem_cons] at h
      rcases h with h | h | h
      · exact absurd h (by decide)
      · exact h2 h.symm
      · exact h4 (List.mem_cons.2 h)
  · rintro ⟨⟨h1, h2, h3, h4⟩, h5⟩
    rcases l with _ | ⟨a, _ | ⟨c, _ | ⟨d, t⟩⟩⟩
    · simp at h5
    · simp at h5
    · simp at h5
    · simp at h1 h2 h3
      subst h1
      refine ⟨c, d :: t, rfl, h2, h3, by simp, ?_⟩
      intro h
      exact h4 (List.mem_cons_of_mem _ (List.mem_cons_of_mem _ h))

/-! ### The attribute loop and the token loop -/

theorem scanAttrs_firstHref (attrs : List Attribute) (page : webPage) (s : String)
    (h : firstHref attrs = some s) :
    scanAttrs attrs page =
      if validID.MatchString s then { page with urlsInDomain := page.urlsInDomain ++ [s] }
      else { page with urlsOutDomain := page.urlsOutDomain ++ [s] } := by
  induction attrs with
  | nil => simp [firstHref] at h
  | cons a rest ih =>
    by_cases hk : a.Key = "href"
    · have : a.Val = s := by simpa [firstHref, hk] using h
      simp [scanAttrs, hk, this]
    · have : firstHref rest = some s := by simpa [firstHref, hk] using h
      simp [scanAttrs, hk, ih this]

theorem scanAttrs_noHref (attrs : List Attribute) (page : webPage)
    (h : firstHref attrs = none) : scanAttrs attrs page = page := by
  induction attrs with
  | nil => rfl
  | cons a rest ih =>
    by_cases hk : a.Key = "href"
    · simp [firstHref, hk] at h
    · have : firstHref rest = none := by simpa [firstHref, hk] using h
      simp [scanAttrs, hk, ih this]

theorem length_eq_zero_iff (s : String) : s.length = 0 ↔ s = "" := by
  rcases s with ⟨l⟩
  show l.length = 0 ↔ _
  rw [List.length_eq_zero]
  constructor
  · rintro rfl; rfl
  · intro h; exact congrArg String.data h

theorem scanAttrs_title (attrs : List Attribute) (page : webPage) :
    (scanAttrs attrs page).title = page.title := by
  induction attrs with
  | nil => rfl
  | cons a rest ih =>
    simp only [scanAttrs]
    split
    · split <;> rfl
    · exact ih

theorem scanAttrs_links (attrs : List Attribute) (page : webPage) :
    (scanAttrs attrs page).urlsInDomain =
        page.urlsInDomain ++ (firstHref attrs).toList.filter (fun s => validID.MatchString s) ∧
      (scanAttrs attrs page).urlsOutDomain =
        page.urlsOutDomain ++ (firstHref attrs).toList.filter (fun s => !validID.MatchString s) := by
  cases h : firstHref attrs with
  | none => rw [scanAttrs_noHref attrs page h]; simp
  | some s =>
    rw [scanAttrs_firstHref attrs page s h]
    by_cases hv : validID.MatchString s = true <;> simp [hv]

theorem hrefs_cons (t : Token) (ts : List Token) :
    hrefs (t :: ts) = (if isStart "a" t then (firstHref t.Attr).toList else []) ++ hrefs ts := by
  unfold hrefs
  by_cases h : isStart "a" t = true
  · simp only [List.filter_cons, h, if_true, List.filterMap_cons]
    cases firstHref t.Attr <;> simp
  · simp [List.filter_cons, h]

theorem fetchLoop_anchor (t : Token) (rest : List Token) (page : webPage)
    (ht : t.Type_ = .StartTagToken) (hd : t.Data = "a") :
    fetchLoop (t :: rest) page = fetchLoop rest (scanAttrs t.Attr page) := by
  rw [fetchLoop.eq_def]; simp [ht, hd]

theorem fetchLoop_title_end (t : Token) (page : webPage)
    (ht : t.Type_ = .StartTagToken) (hd : t.Data = "title") (hp : page.title.length = 0) :
    fetchLoop [t] page = { page with title := "" } := by
  rw [fetchLoop.eq_def]; simp [ht, hd, hp]

theorem fetchLoop_title_next (t n : Token) (rest : List Token) (page : webPage)
    (ht : t.Type_ = .StartTagToken) (hd : t.Data = "title") (hp : page.title.length = 0) :
    fetchLoop (t :: n :: rest) page = fetchLoop rest { page with title := n.Data } := by
  rw [fetchLoop.eq_def]; simp [ht, hd, hp]

theorem fetchLoop_title_kept (t : Token) (rest : List Token) (page : webPage)
    (ht : t.Type_ = .StartTagToken) (hd : t.Data = "title") (hp : ¬ page.title.length = 0) :
    fetchLoop (t :: rest) page = fetchLoop rest page := by
  rw [fetchLoop.eq_def]; simp [ht, hd, hp]

theorem fetchLoop_other_tag (t : Token) (rest : List Token) (page : webPage)
    (ht : t.Type_ = .StartTagToken) (ha : ¬ t.Data = "a") (hd : ¬ t.Data = "title") :
    fetchLoop (t :: rest) page = fetchLoop rest page := by
  rw [fetchLoop.eq_def]; simp [ht, hd, ha]

theorem fetchLoop_other_type (t : Token) (rest : List Token) (page : webPage)
    (ht : ¬ t.Type_ = .StartTagToken) :
    fetchLoop (t :: rest) page = fetchLoop rest page := by
  rw [fetchLoop.eq_def]; simp [ht]

theorem isStart_iff (name : String) (t : Token) :
    isStart name t = true ↔ t.Type_ = .StartTagToken ∧ t.Data = name := by
  simp [isStart]

theorem titleBody_not_anchor (n : Token) (h : titleBody n = true) : isStart "a" n = false := by
  simp only [titleBody, decide_eq_true_eq, Bool.decide_or, Bool.or_eq_true, Bool.decide_and,
    Bool.and_eq_true] at h
  rcases h with h | h <;> simp [isStart, h.1]

theorem titleBody_data (n : Token) (h : titleBody n = true) : ¬ n.Data.length = 0 := by
  rw [length_eq_zero_iff]
  simp only [titleBody, decide_eq_true_eq, Bool.decide_or, Bool.or_eq_true, Bool.decide_and,
    Bool.and_eq_true] at h
  rcases h with h | h
  · simpa using h.2
  · rw [h.2]; decide

theorem fetchLoop_links (ts : List Token) (page : webPage) (h : titleIsRCDATA ts = true) :
    (fetchLoop ts page).urlsInDomain =
        page.urlsInDomain ++ (hrefs ts).filter (fun s => validID.MatchString s) ∧
      (fetchLoop ts page).urlsOutDomain =
        page.urlsOutDomain ++ (hrefs ts).filter (fun s => !validID.MatchString s) := by
  induction ts, page using fetchLoop.induct with
  | case1 page => simp [fetchLoop, hrefs]
  | case2 t rest page ht hd ih =>
    have hr : titleIsRCDATA rest = true := by
      simp only [titleIsRCDATA, Bool.and_eq_true] at h; exact h.2
    have hs : isStart "a" t = true := (isStart_iff _ _).2 ⟨ht, hd⟩
    rw [fetchLoop_anchor t rest page ht hd, hrefs_cons, (ih hr).1, (ih hr).2,
      (scanAttrs_links t.Attr page).1, (scanAttrs_links t.Attr page).2]
    simp [hs, List.append_assoc]
  | case3 t page ht ha hd hp =>
    have hs : isStart "a" t = false := by simp [isStart, ha]
    rw [fetchLoop_title_end t page ht hd hp, hrefs_cons]
    simp [hs, hrefs]
  | case4 t page ht ha hd hp n rest2 ih =>
    have hs : isStart "a" t = false := by simp [isStart, ha]
    have hst : isStart "title" t = true := (isStart_iff _ _).2 ⟨ht, hd⟩
    simp only [titleIsRCDATA, Bool.and_eq_true, hst, if_true] at h
    have hn := titleBody_not_anchor n h.1
    have hr : titleIsRCDATA rest2 = true := h.2.2
    rw [fetchLoop_title_next t n rest2 page ht hd hp, hrefs_cons, hrefs_cons, (ih hr).1,
      (ih hr).2]
    simp [hs, hn]
  | case5 t rest page ht ha hd hp ih =>
    have hs : isStart "a" t = false := by simp [isStart, ha]
    have hr : titleIsRCDATA rest = true := by
      simp only [titleIsRCDATA, Bool.and_eq_true] at h; exact h.2
    rw [fetchLoop_title_kept t rest page ht hd hp, hrefs_cons, (ih hr).1, (ih hr).2]
    simp [hs]
  | case6 t rest page ht ha hd ih =>
    have hs : isStart "a" t = false := by simp [isStart, ha]
    have hr : titleIsRCDATA rest = true := by
      simp only [titleIsRCDATA, Bool.and_eq_true] at h; exact h.2
    rw [fetchLoop_other_tag t rest page ht ha hd, hrefs_cons, (ih hr).1, (ih hr).2]
    simp [hs]
  | case7 t rest page ht ih =>
    have hs : isStart "a" t = false := by
      simp only [isStart, Bool.decide_and, Bool.and_eq_false_imp, decide_eq_true_eq]
      intro h2; exact absurd h2 (fun h3 => ht h3)
    have hr : titleIsRCDATA rest = true := by
      simp only [titleIsRCDATA, Bool.and_eq_true] at h; exact h.2
    rw [fetchLoop_other_type t rest page (fun h3 => ht h3), hrefs_cons, (ih hr).1, (ih hr).2]
    simp [hs]

theorem capturedTitle_cons (t : Token) (ts : List Token) :
    capturedTitle (t :: ts) =
      if isStart "title" t then ((ts.head?).map (fun n => n.Data)).getD "" else capturedTitle ts := by
  unfold capturedTitle
  by_cases h : isStart "title" t = true <;> simp [afterFirstTitle, h]

theorem fetchLoop_title_of_set (ts : List Token) (page : webPage)
    (hp : ¬ page.title.length = 0) : (fetchLoop ts page).title = page.title := by
  induction ts, page using fetchLoop.induct with
  | case1 page => rfl
  | case2 t rest page ht hd ih =>
    rw [fetchLoop_anchor t rest page ht hd, ih (by rwa [scanAttrs_title]), scanAttrs_title]
  | case3 t page ht ha hd hp2 => exact absurd hp2 hp
  | case4 t page ht ha hd hp2 n rest2 ih => exact absurd hp2 hp
  | case5 t rest page ht ha hd hp2 ih => rw [fetchLoop_title_kept t rest page ht hd hp2, ih hp]
  | case6 t rest page ht ha hd ih => rw [fetchLoop_other_tag t rest page ht ha hd, ih hp]
  | case7 t rest page ht ih => rw [fetchLoop_other_type t rest page (fun h3 => ht h3), ih hp]

theorem fetchLoop_title (ts : List Token) (page : webPage) (h : titleIsRCDATA ts = true)
    (hp : page.title.length = 0) : (fetchLoop ts page).title = capturedTitle ts := by
  induction ts, page using fetchLoop.induct with
  | case1 page => rw [length_eq_zero_iff] at hp; simpa [fetchLoop, capturedTitle, afterFirstTitle] using hp
  | case2 t rest page ht hd ih =>
    have hr : titleIsRCDATA rest = true := by
      simp only [titleIsRCDATA, Bool.and_eq_true] at h; exact h.2
    have hs : isStart "title" t = false := by simp [isStart, hd]
    rw [fetchLoop_anchor t rest page ht hd, ih hr (by rwa [scanAttrs_title]), capturedTitle_cons]
    simp [hs]
  | case3 t page ht ha hd hp2 =>
    have hst : isStart "title" t = true := (isStart_iff _ _).2 ⟨ht, hd⟩
    rw [fetchLoop_title_end t page ht hd hp, capturedTitle_cons]
    simp [hst]
  | case4 t page ht ha hd hp2 n rest2 ih =>
    have hst : isStart "title" t = true := (isStart_iff _ _).2 ⟨ht, hd⟩
    simp only [titleIsRCDATA, Bool.and_eq_true, hst, if_true] at h
    rw [fetchLoop_title_next t n rest2 page ht hd hp, capturedTitle_cons,
      fetchLoop_title_of_set _ _ (titleBody_data n h.1)]
    simp [hst]
  | case5 t rest page ht ha hd hp2 ih => exact absurd hp hp2
  | case6 t rest page ht ha hd ih =>
    have hr : titleIsRCDATA rest = true := by
      simp only [titleIsRCDATA, Bool.and_eq_true] at h; exact h.2
    have hs : isStart "title" t = false := by simp [isStart, hd]
    rw [fetchLoop_other_tag t rest page ht ha hd, ih hr hp, capturedTitle_cons]
    simp [hs]
  | case7 t rest page ht ih =>
    have hr : titleIsRCDATA rest = true := by
      simp only [titleIsRCDATA, Bool.and_eq_true] at h; exact h.2
    have hs : isStart "title" t = false := by
      simp only [isStart, Bool.decide_and, Bool.and_eq_false_imp, decide_eq_true_eq]
      intro h2; exact absurd h2 (fun h3 => ht h3)
    rw [fetchLoop_other_type t rest page (fun h3 => ht h3), ih hr hp, capturedTitle_cons]
    simp [hs]

theorem afterFirstTitle_append (ts ts2 : List Token) (n : Token)
    (h : afterFirstTitle ts = some n) : afterFirstTitle (ts ++ ts2) = some n := by
  induction ts with
  | nil => simp [afterFirstTitle] at h
  | cons t rest ih =>
    by_cases hs : isStart "title" t = true
    · simp only [afterFirstTitle, hs, if_true] at h
      cases rest with
      | nil => simp at h
      | cons m rest2 => simpa [afterFirstTitle, hs] using h
    · simp only [afterFirstTitle, hs] at h
      simpa [afterFirstTitle, hs] using ih h

theorem filter_length_split (p : String → Bool) (l : List String) :
    (l.filter p).length + (l.filter (fun s => !p s)).length = l.length := by
  induction l with
  | nil => rfl
  | cons a l ih =>
    by_cases h : p a = true
    · simp [List.filter_cons, h]; omega
    · simp [List.filter_cons, h]; omega

theorem scanAttrs_in_valid (attrs : List Attribute) (page : webPage)
    (hp : ∀ x ∈ page.urlsInDomain, validID.MatchString x = true) :
    ∀ x ∈ (scanAttrs attrs page).urlsInDomain, validID.MatchString x = true := by
  intro x hx
  rw [(scanAttrs_links attrs page).1, List.mem_append, List.mem_filter] at hx
  rcases hx with hx | hx
  · exact hp x hx
  · exact hx.2

theorem fetchLoop_in_valid (ts : List Token) (page : webPage)
    (hp : ∀ x ∈ page.urlsInDomain, validID.MatchString x = true) :
    ∀ x ∈ (fetchLoop ts page).urlsInDomain, validID.MatchString x = true := by
  induction ts, page using fetchLoop.induct with
  | case1 page => exact hp
  | case2 t rest page ht hd ih =>
    rw [fetchLoop_anchor t rest page ht hd]
    exact ih (scanAttrs_in_valid _ _ hp)
  | case3 t page ht ha hd hp2 => rw [fetchLoop_title_end t page ht hd hp2]; exact hp
  | case4 t page ht ha hd hp2 n rest2 ih =>
    rw [fetchLoop_title_next t n rest2 page ht hd hp2]; exact ih hp
  | case5 t rest page ht ha hd hp2 ih =>
    rw [fetchLoop_title_kept t rest page ht hd hp2]; exact ih hp
  | case6 t rest page ht ha hd ih => rw [fetchLoop_other_tag t rest page ht ha hd]; exact ih hp
  | case7 t rest page ht ih =>
    rw [fetchLoop_other_type t rest page (fun h3 => ht h3)]; exact ih hp

theorem Fetch_ok (web : Web) (url : String) (ts : List Token) (h : web url = some ts) :
    Fetch web url = .ok (fetchLoop ts webPage.zero) := by
  simp [Fetch, h]

theorem Fetch_ok_iff (web : Web) (url : String) (p : webPage) :
    Fetch web url = .ok p ↔ ∃ ts, web url = some ts ∧ p = fetchLoop ts webPage.zero := by
  unfold Fetch
  cases h : web url with
  | none => simp
  | some ts =>
    simp only [Except.ok.injEq, Option.some.injEq, exists_eq_left']
    exact eq_comm

theorem Fetch_in_valid (web : Web) (url : String) (p : webPage) (h : Fetch web url = .ok p) :
    ∀ x ∈ p.urlsInDomain, validID.MatchString x = true := by
  obtain ⟨ts, -, rfl⟩ := (Fetch_ok_iff web url p).1 h
  exact fetchLoop_in_valid ts webPage.zero (by simp [webPage.zero])

/-! ### Classification of links (C1, C2) -/

/-- C1 (as amended): the first `href` value `s` of an anchor is appended to the
in-domain list exactly when it satisfies the lexical rule (begins with `/`,
second character neither `/` nor `#`, no `#` anywhere) and is at least three
characters long; otherwise it is appended to the out-domain list. -/
theorem C1_in_domain_rule (attrs : List Attribute) (page : webPage) (s : String)
    (h : firstHref attrs = some s) :
    scanAttrs attrs page =
      if lexicalRule s ∧ 3 ≤ s.length then
        { page with urlsInDomain := page.urlsInDomain ++ [s] }
      else { page with urlsOutDomain := page.urlsOutDomain ++ [s] } := by
  rw [scanAttrs_firstHref attrs page s h]
  by_cases hv : validID.MatchString s = true
  · rw [if_pos hv, if_pos ((validID_iff_rule s).1 hv)]
  · rw [if_neg hv, if_neg (fun hr => hv ((validID_iff_rule s).2 hr))]

/-- C1, an instance: `/docs/page` is the first `href` of its anchor and lands in
the in-domain list. -/
theorem C1_in_domain_rule_witness :
    firstHref [⟨"", "class", "nav"⟩, ⟨"", "href", "/docs/page"⟩, ⟨"", "href", "/zzz"⟩]
        = some "/docs/page" ∧
      scanAttrs [⟨"", "class", "nav"⟩, ⟨"", "href", "/docs/page"⟩, ⟨"", "href", "/zzz"⟩]
        webPage.zero = { title := "", urlsInDomain := ["/docs/page"], urlsOutDomain := [] } :=
  ⟨by decide, (C1_in_domain_rule _ webPage.zero "/docs/page" (by decide)).trans (by decide)⟩

/-- C1 as stated fails: the two-character link `/a` satisfies the stated rule,
yet `Fetch` puts it in the out-domain list, because the pattern asks for at
least one more character after the second. -/
theorem C1_short_link_out_domain :
    lexicalRule "/a" ∧
      fetchLoop [anchor "/a"] webPage.zero =
        { title := "", urlsInDomain := [], urlsOutDomain := ["/a"] } := by
  decide

/-- C2: a link that does not begin with `/`, or begins with `//`, or contains a
`#`, is never in the in-domain list of a fetched page, and the anchor that
carries it as first `href` appends it to the out-domain list. -/
theorem C2_excluded_links_out_domain (s : String) (h : excluded s) :
    (∀ (web : Web) (url : String) (p : webPage),
        Fetch web url = .ok p → s ∉ p.urlsInDomain) ∧
      (∀ (attrs : List Attribute) (page : webPage), firstHref attrs = some s →
        scanAttrs attrs page = { page with urlsOutDomain := page.urlsOutDomain ++ [s] }) := by
  have hv : ¬ validID.MatchString s = true := by
    rw [validID_iff]
    rintro ⟨c, t, hs, h1, h2, h3, h4⟩
    unfold excluded at h
    rw [hs] at h
    rcases h with h | h | h
    · exact h rfl
    · simp at h; exact h1 h
    · simp only [List.mem_cons] at h
      rcases h with h | h | h
      · exact absurd h (by decide)
      · exact h2 h.symm
      · exact h4 h
  refine ⟨fun web url p hp hmem => hv (Fetch_in_valid web url p hp s hmem), ?_⟩
  intro attrs page hf
  rw [scanAttrs_firstHref attrs page s hf, if_neg hv]

/-- C2, the three literal cases: `//example.com/x`, `/a#frag` and
`https://other.org/` are excluded and are appended to the out-domain list. -/
theorem C2_excluded_links_out_domain_witness :
    (excluded "//example.com/x" ∧
      scanAttrs (anchor "//example.com/x").Attr webPage.zero =
        { title := "", urlsInDomain := [], urlsOutDomain := ["//example.com/x"] }) ∧
    (excluded "/a#frag" ∧
      scanAttrs (anchor "/a#frag").Attr webPage.zero =
        { title := "", urlsInDomain := [], urlsOutDomain := ["/a#frag"] }) ∧
    (excluded "https://other.org/" ∧
      scanAttrs (anchor "https://other.org/").Attr webPage.zero =
        { title := "", urlsInDomain := [], urlsOutDomain := ["https://other.org/"] }) :=
  ⟨⟨by decide, (C2_excluded_links_out_domain _ (by decide)).2 _ webPage.zero (by decide)⟩,
   ⟨by decide, (C2_excluded_links_out_domain _ (by decide)).2 _ webPage.zero (by decide)⟩,
   ⟨by decide, (C2_excluded_links_out_domain _ (by decide)).2 _ webPage.zero (by decide)⟩⟩

/-! ### Links and title of a fetched page (C3, C4) -/

/-- C3: on a token stream as the tokenizer yields it (`titleIsRCDATA`), the two
link lists of the fetched page are the first-`href` values of the anchor start
tokens of the stream, in stream order, split by the in-domain test: each anchor
with an `href` contributes that one value to exactly one list, and an anchor
without `href` contributes nothing. -/
theorem C3_links_from_anchors (web : Web) (url : String) (ts : List Token)
    (hw : web url = some ts) (hts : titleIsRCDATA ts = true) :
    ∃ p, Fetch web url = .ok p ∧
      p.urlsInDomain = (hrefs ts).filter (fun s => validID.MatchString s) ∧
      p.urlsOutDomain = (hrefs ts).filter (fun s => !validID.MatchString s) ∧
      p.urlsInDomain.length + p.urlsOutDomain.length = (hrefs ts).length := by
  refine ⟨_, Fetch_ok web url ts hw, ?_, ?_, ?_⟩
  · simpa [webPage.zero] using (fetchLoop_links ts webPage.zero hts).1
  · simpa [webPage.zero] using (fetchLoop_links ts webPage.zero hts).2
  · rw [(fetchLoop_links ts webPage.zero hts).1, (fetchLoop_links ts webPage.zero hts).2]
    simpa [webPage.zero] using filter_length_split (fun s => validID.MatchString s) (hrefs ts)

/-- C3, an instance: on `samplePage` the anchors yield `/docs/page`,
`https://other.org/` and `/pkg/`; the second `href` `/zzz` and the anchor
without `href` yield nothing. -/
theorem C3_links_from_anchors_witness :
    titleIsRCDATA samplePage = true ∧ hrefs samplePage = ["/docs/page", "https://other.org/", "/pkg/"] ∧
      ∃ p, Fetch (fun _ => some samplePage) "https://golang.org/" = .ok p ∧
        p.urlsInDomain = ["/docs/page", "/pkg/"] ∧
        p.urlsOutDomain = ["https://other.org/"] := by
  refine ⟨by decide, by decide, ?_⟩
  obtain ⟨p, h1, h2, h3, -⟩ :=
    C3_links_from_anchors (fun _ => some samplePage) "https://golang.org/" samplePage rfl
      (by decide)
  exact ⟨p, h1, h2.trans (by decide), h3.trans (by decide)⟩

theorem Fetch_title_captured (ts ts2 : List Token) (n : Token)
    (hn : afterFirstTitle ts = some n) (h2 : titleIsRCDATA (ts ++ ts2) = true) :
    (fetchLoop (ts ++ ts2) webPage.zero).title = n.Data := by
  rw [fetchLoop_title (ts ++ ts2) webPage.zero h2 rfl]
  simp [capturedTitle, afterFirstTitle_append ts ts2 n hn]

theorem Fetch_title_text (ts : List Token) (hts : titleIsRCDATA ts = true)
    (htext : ∀ n, afterFirstTitle ts = some n → n.Type_ = .TextToken) :
    (fetchLoop ts webPage.zero).title = specTitle ts := by
  rw [fetchLoop_title ts webPage.zero hts rfl]
  unfold capturedTitle specTitle
  cases h : afterFirstTitle ts with
  | none => rfl
  | some n => simp [tokenText, htext n h]

/-- C4, the failing input: on `<title></title><title>Second</title>` the token
after the first `title` start tag is the end tag, which has no text, so the
specified title is empty; `Fetch` stores that token's `Data`, the tag name
`title`. On the two-title document of `samplePage` the title is `First`. -/
theorem C4_empty_title_stores_tag_name :
    titleIsRCDATA emptyTitlePage = true ∧
    specTitle emptyTitlePage = "" ∧
    Fetch (fun _ => some emptyTitlePage) "https://golang.org/" =
      .ok { title := "title", urlsInDomain := [], urlsOutDomain := [] } ∧
    specTitle samplePage = "First" ∧
    (fetchLoop samplePage webPage.zero).title = "First" :=
  ⟨by decide, by decide, rfl, by decide, by decide⟩

/-! ### One call of `Crawl` (C5, C6, C7) -/

theorem firstOccurrences_filter (p : String → Bool) (l : List String) :
    (firstOccurrences l).filter p = firstOccurrences (l.filter p) := by
  induction l with
  | nil => rfl
  | cons x xs ih =>
    by_cases hp : p x = true
    · simp only [firstOccurrences, List.filter_cons, hp, if_true, ← ih, List.filter_filter]
      congr 1
      apply List.filter_congr
      intro y _
      exact Bool.and_comm _ _
    · simp only [firstOccurrences, List.filter_cons, hp, List.filter_filter,
        Bool.false_eq_true, if_false]
      rw [← ih]
      apply List.filter_congr
      intro y _
      by_cases hy : y = x
      · subst hy; simp [hp]
      · simp [hy]

theorem fanOut_spawned (domain : String) (depth : Int) (links : List String)
    (urls : String → Option Bool) :
    (fanOut domain depth links urls).2 =
      (firstOccurrences ((links.map (resolve domain)).filter (fun u => (urls u).isNone))).map
        (fun u => (u, depth - 1)) := by
  induction links generalizing urls with
  | nil => rfl
  | cons u rest ih =>
    cases h : urls (resolve domain u) with
    | none =>
      have h2 : urls (TrimSuffix domain "/" ++ u) = none := h
      simp only [fanOut, h2, List.map_cons, List.filter_cons, h, Option.isNone_none, if_true,
        firstOccurrences, ih, ← firstOccurrences_filter, List.filter_filter]
      congr 3
      funext y
      by_cases hy : y = resolve domain u
      · subst hy; simp [mapSet, resolve]
      · have hy2 : ¬ y = TrimSuffix domain "/" ++ u := hy
        simp [mapSet, hy, hy2, resolve]
    | some b =>
      have h2 : urls (TrimSuffix domain "/" ++ u) = some b := h
      simp only [fanOut, h2, List.map_cons, List.filter_cons, h, Option.isNone_some, ih]
      simp

theorem fanOut_urls (domain : String) (depth : Int) (links : List String)
    (urls : String → Option Bool) (x : String) :
    (fanOut domain depth links urls).1 x =
      match urls x with
      | some b => some b
      | none => if x ∈ links.map (resolve domain) then some false else none := by
  induction links generalizing urls with
  | nil => simp [fanOut]; cases urls x <;> rfl
  | cons u rest ih =>
    cases h : urls (resolve domain u) with
    | none =>
      have h2 : urls (TrimSuffix domain "/" ++ u) = none := h
      simp only [fanOut, h2, ih, List.map_cons, List.mem_cons]
      by_cases hx : x = resolve domain u
      · subst hx; simp [mapSet, resolve, h2]
      · have hx2 : ¬ x = TrimSuffix domain "/" ++ u := hx
        simp [mapSet, hx, hx2]
    | some b =>
      have h2 : urls (TrimSuffix domain "/" ++ u) = some b := h
      simp only [fanOut, h2, ih, List.map_cons, List.mem_cons]
      by_cases hx : x = resolve domain u
      · subst hx; simp [h]
      · simp [hx]

theorem Crawl_done (web : Web) (url : String) (depth : Int) (site : webSite)
    (hd : depth ≤ 0) :
    Crawl web url depth site = { site := site, spawned := [], fetched := [] } := by
  simp [Crawl, hd]

theorem Crawl_error (web : Web) (url : String) (depth : Int) (site : webSite) (e : String)
    (hd : 0 < depth) (hf : Fetch web url = .error e) :
    Crawl web url depth site =
      { site := { site with urlsInDomain := ⟨mapDelete site.urlsInDomain.urls url⟩ },
        spawned := [], fetched := [url] } := by
  simp [Crawl, not_le.2 hd, hf]

theorem Crawl_ok (web : Web) (url : String) (depth : Int) (site : webSite) (p : webPage)
    (hd : 0 < depth) (hf : Fetch web url = .ok p) :
    Crawl web url depth site =
      { site := { site with
                  pages := mapSet site.pages url p,
                  urlsInDomain := ⟨(fanOut site.domain depth p.urlsInDomain
                    (mapSet site.urlsInDomain.urls url true)).1⟩ },
        spawned := (fanOut site.domain depth p.urlsInDomain
          (mapSet site.urlsInDomain.urls url true)).2,
        fetched := [url] } := by
  simp [Crawl, not_le.2 hd, hf]

theorem TrimSuffix_slash (d : String) : TrimSuffix (d ++ "/") "/" = d := by
  rcases d with ⟨l⟩
  have h : HasSuffix (⟨l⟩ ++ "/") "/" = true := by
    show List.isSuffixOf ['/'] (l ++ ['/']) = true
    rw [List.isSuffixOf_iff_suffix]
    exact List.suffix_append _ _
  unfold TrimSuffix
  rw [if_pos h]
  show String.mk ((l ++ ['/']).take ((l ++ ['/']).length - 1)) = _
  simp

theorem TrimSuffix_none (d : String) (h : HasSuffix d "/" = false) : TrimSuffix d "/" = d := by
  simp [TrimSuffix, h]

theorem reachable_runTask (web : Web) (s0 s s2 : Crawler) (i : Nat)
    (h : Reachable web s0 s) (hr : runTask web i s = some s2) : Reachable web s0 s2 :=
  Relation.ReflTransGen.tail h ⟨i, hr⟩

theorem reachable_runSchedule (web : Web) (sched : List Nat) (s0 s : Crawler)
    (h : Reachable web s0 s) : Reachable web s0 (runSchedule web sched s) := by
  induction sched generalizing s with
  | nil => exact h
  | cons i rest ih =>
    unfold runSchedule
    cases hr : runTask web i s with
    | none => exact ih s h
    | some s2 => exact ih s2 (reachable_runTask web s0 s s2 i h hr)

theorem runTask_some (web : Web) (i : Nat) (s s2 : Crawler) (h : runTask web i s = some s2) :
    ∃ t, s.tasks[i]? = some t ∧
      s2 = { site := (Crawl web t.1 t.2 s.site).site,
             tasks := s.tasks.eraseIdx i ++ (Crawl web t.1 t.2 s.site).spawned,
             fetched := s.fetched ++ (Crawl web t.1 t.2 s.site).fetched } := by
  unfold runTask at h
  cases ht : s.tasks[i]? with
  | none => simp [ht] at h
  | some t =>
    simp only [ht, Option.some.injEq] at h
    exact ⟨t, rfl, h.symm⟩

theorem reachable_done (web : Web) (domain : String) (depth : Int) (hd : depth ≤ 0)
    (s : Crawler) (h : Reachable web (start domain depth) s) :
    s.site.pages = mapEmpty ∧ s.site.urlsInDomain.urls = mapEmpty ∧ s.fetched = [] ∧
      (s.tasks = [(domain, depth)] ∨ s.tasks = []) := by
  induction h with
  | refl => exact ⟨rfl, rfl, rfl, Or.inl rfl⟩
  | tail _ hstep ih =>
    obtain ⟨i, hi⟩ := hstep
    obtain ⟨t, ht, rfl⟩ := runTask_some web _ _ _ hi
    obtain ⟨h1, h2, h3, h4⟩ := ih
    rcases h4 with h4 | h4
    · rw [h4] at ht ⊢
      cases i with
      | zero =>
        simp only [List.getElem?_cons_zero, Option.some.injEq] at ht
        subst ht
        simp [Crawl_done web domain depth _ hd, h1, h2, h3]
      | succ j => simp at ht
    · rw [h4] at ht; simp at ht

theorem mem_firstOccurrences (l : List String) (x : String) :
    x ∈ firstOccurrences l ↔ x ∈ l := by
  induction l with
  | nil => simp [firstOccurrences]
  | cons a l ih =>
    simp only [firstOccurrences, List.mem_cons, List.mem_filter, ih, decide_eq_true_eq]
    by_cases h : x = a <;> simp [h]

theorem resolve_slash (d l : String) : resolve (d ++ "/") l = d ++ l := by
  rw [resolve, TrimSuffix_slash]

/-- C5: a `Crawl` step with positive depth whose fetch succeeds records the page
under the URL, marks the URL `true` in the registry, and then claims the
resolved in-domain links in list order: the children are the first occurrences
of the resolved URLs that are not yet registry keys (the page's own URL is one
by then), each with `depth - 1`; those URLs become `false` entries and every
other entry is kept. The resolved URL is the domain without one trailing `/`
followed by the link. -/
theorem C5_crawl_success (web : Web) (url : String) (depth : Int) (site : webSite)
    (p : webPage) (hd : 0 < depth) (hf : Fetch web url = .ok p) :
    (Crawl web url depth site).site.pages = mapSet site.pages url p ∧
    (Crawl web url depth site).site.urlsInDomain.urls url = some true ∧
    (Crawl web url depth site).spawned =
      (firstOccurrences ((p.urlsInDomain.map (resolve site.domain)).filter
        (fun u => (mapSet site.urlsInDomain.urls url true u).isNone))).map
        (fun u => (u, depth - 1)) ∧
    (∀ x, (Crawl web url depth site).site.urlsInDomain.urls x =
      match mapSet site.urlsInDomain.urls url true x with
      | some b => some b
      | none => if x ∈ p.urlsInDomain.map (resolve site.domain) then some false else none) ∧
    (∀ d l, site.domain = d ++ "/" → resolve site.domain l = d ++ l) ∧
    (∀ l, HasSuffix site.domain "/" = false → resolve site.domain l = site.domain ++ l) := by
  rw [Crawl_ok web url depth site p hd hf]
  refine ⟨rfl, ?_, fanOut_spawned _ _ _ _, fun x => fanOut_urls _ _ _ _ x, ?_, ?_⟩
  · show (fanOut site.domain depth p.urlsInDomain (mapSet site.urlsInDomain.urls url true)).1 url
      = some true
    rw [fanOut_urls]
    simp [mapSet]
  · intro d l h
    rw [h, resolve_slash]
  · intro l h
    rw [resolve, TrimSuffix_none _ h]

/-- C5, an instance: the seed page of `sampleWeb` lists `/bb`, `/cc`, `/bb`; the
step spawns `bb` and `cc` once each, with depth 2, in that order. -/
theorem C5_crawl_success_witness :
    (0 : Int) < 3 ∧
    Fetch sampleWeb "https://golang.org/" =
      .ok { title := "", urlsInDomain := ["/bb", "/cc", "/bb"], urlsOutDomain := [] } ∧
    (Crawl sampleWeb "https://golang.org/" 3 mainStart.site).spawned =
      [("https://golang.org/bb", 2), ("https://golang.org/cc", 2)] :=
  ⟨by decide, rfl,
    (C5_crawl_success sampleWeb "https://golang.org/" 3 mainStart.site _ (by decide)
      rfl).2.2.1.trans (by decide)⟩

/-- C6: a `Crawl` step with positive depth whose fetch fails removes the URL
from the registry, keeps every other registry entry and the page map, and
spawns nothing; a later successful step (on any site state of the same domain
where the URL is still absent) whose page links to that URL claims it again:
it spawns a task for it and enters it as `false`. -/
theorem C6_crawl_failure (web : Web) (url : String) (depth : Int) (site : webSite)
    (e : String) (hd : 0 < depth) (hf : Fetch web url = .error e) :
    (Crawl web url depth site).site.urlsInDomain.urls url = none ∧
    (∀ x, x ≠ url →
      (Crawl web url depth site).site.urlsInDomain.urls x = site.urlsInDomain.urls x) ∧
    (Crawl web url depth site).site.pages = site.pages ∧
    (Crawl web url depth site).site.domain = site.domain ∧
    (Crawl web url depth site).spawned = [] ∧
    ∀ (later : webSite) (url2 : String) (depth2 : Int) (p : webPage) (l : String),
      later.domain = site.domain → later.urlsInDomain.urls url = none →
      0 < depth2 → Fetch web url2 = .ok p → l ∈ p.urlsInDomain →
      resolve site.domain l = url →
        (url, depth2 - 1) ∈ (Crawl web url2 depth2 later).spawned ∧
        (Crawl web url2 depth2 later).site.urlsInDomain.urls url = some false := by
  rw [Crawl_error web url depth site e hd hf]
  refine ⟨by simp [mapDelete], fun x hx => by simp [mapDelete, hx], rfl, rfl, rfl, ?_⟩
  intro later url2 depth2 p l hdom habs hd2 hf2 hl hres
  have hne : url ≠ url2 := by
    rintro rfl
    rw [hf] at hf2
    exact Except.noConfusion hf2
  have hmem : url ∈ p.urlsInDomain.map (resolve later.domain) := by
    rw [hdom, ← hres]
    exact List.mem_map_of_mem _ hl
  have hnone : mapSet later.urlsInDomain.urls url2 true url = none := by
    simp [mapSet, hne, habs]
  rw [Crawl_ok web url2 depth2 later p hd2 hf2]
  constructor
  · show (url, depth2 - 1) ∈ (fanOut later.domain depth2 p.urlsInDomain
      (mapSet later.urlsInDomain.urls url2 true)).2
    rw [fanOut_spawned]
    refine List.mem_map.2 ⟨url, ?_, rfl⟩
    rw [mem_firstOccurrences, List.mem_filter]
    exact ⟨hmem, by simp [hnone]⟩
  · show (fanOut later.domain depth2 p.urlsInDomain
      (mapSet later.urlsInDomain.urls url2 true)).1 url = some false
    rw [fanOut_urls, hnone]
    simp [hmem]

/-- C6, an instance on `sampleWeb`: after the seed step, the task for `bb` fails
and `bb` leaves the registry; the step for `cc`, whose page links to `/bb`,
then spawns `bb` again with depth 1. -/
theorem C6_crawl_failure_witness :
    (0 : Int) < 2 ∧
    Fetch sampleWeb "https://golang.org/bb" = .error "not found: https://golang.org/bb" ∧
    (Crawl sampleWeb "https://golang.org/bb" 2
      (runSchedule sampleWeb [0] mainStart).site).site.urlsInDomain.urls
        "https://golang.org/bb" = none ∧
    ("https://golang.org/bb", (1 : Int)) ∈
      (Crawl sampleWeb "https://golang.org/cc" 2
        (Crawl sampleWeb "https://golang.org/bb" 2
          (runSchedule sampleWeb [0] mainStart).site).site).spawned :=
  ⟨by decide, rfl,
    (C6_crawl_failure sampleWeb "https://golang.org/bb" 2
      (runSchedule sampleWeb [0] mainStart).site _ (by decide) rfl).1,
    ((C6_crawl_failure sampleWeb "https://golang.org/bb" 2
      (runSchedule sampleWeb [0] mainStart).site _ (by decide) rfl).2.2.2.2.2
        (Crawl sampleWeb "https://golang.org/bb" 2 (runSchedule sampleWeb [0] mainStart).site).site
        "https://golang.org/cc" 2
        { title := "", urlsInDomain := ["/cc", "/bb"], urlsOutDomain := [] } "/bb"
        rfl
        (C6_crawl_failure sampleWeb "https://golang.org/bb" 2
          (runSchedule sampleWeb [0] mainStart).site _ (by decide) rfl).1
        (by decide) rfl (by decide) (by decide)).1⟩

/-- C7: `Crawl` with depth at most 0 calls no `Fetch`, returns the site as it
was and spawns nothing; a crawl started with such a depth never records a
page, never enters a registry key and never fetches. -/
theorem C7_depth_exhausted (web : Web) (url domain : String) (depth : Int) (site : webSite)
    (hd : depth ≤ 0) :
    Crawl web url depth site = { site := site, spawned := [], fetched := [] } ∧
    ∀ s, Reachable web (start domain depth) s →
      s.site.pages = mapEmpty ∧ s.site.urlsInDomain.urls = mapEmpty ∧ s.fetched = [] :=
  ⟨Crawl_done web url depth site hd, fun s hs =>
    ⟨(reachable_done web domain depth hd s hs).1, (reachable_done web domain depth hd s hs).2.1,
      (reachable_done web domain depth hd s hs).2.2.1⟩⟩

/-- C7, an instance: the crawl of `sampleWeb` started with depth 0 has, after its
only task ran, an empty fetch log and no page for the seed. -/
theorem C7_depth_exhausted_witness :
    (0 : Int) ≤ 0 ∧
    (runSchedule sampleWeb [0] (start "https://golang.org/" 0)).fetched = [] ∧
    (runSchedule sampleWeb [0] (start "https://golang.org/" 0)).tasks = [] ∧
    (runSchedule sampleWeb [0] (start "https://golang.org/" 0)).site.pages
      "https://golang.org/" = none :=
  ⟨by decide,
    ((C7_depth_exhausted sampleWeb "https://golang.org/" "https://golang.org/" 0
      mainStart.site (by decide)).2 _
        (reachable_runSchedule sampleWeb [0] _ _ Relation.ReflTransGen.refl)).2.2,
    by decide,
    congrFun ((C7_depth_exhausted sampleWeb "https://golang.org/" "https://golang.org/" 0
      mainStart.site (by decide)).2 _
        (reachable_runSchedule sampleWeb [0] _ _ Relation.ReflTransGen.refl)).1 _⟩

/-! ### Invariants of a crawl (C10, C9, C8) -/

theorem eraseIdx_split {α : Type} (l : List α) (i : Nat) (t : α) (h : l[i]? = some t) :
    ∃ l1 l2, l = l1 ++ t :: l2 ∧ l.eraseIdx i = l1 ++ l2 := by
  induction l generalizing i with
  | nil => simp at h
  | cons a l ih =>
    cases i with
    | zero =>
      simp only [List.getElem?_cons_zero, Option.some.injEq] at h
      subst h
      exact ⟨[], l, rfl, rfl⟩
    | succ j =>
      simp only [List.getElem?_cons_succ] at h
      obtain ⟨l1, l2, h1, h2⟩ := ih j h
      exact ⟨a :: l1, l2, by simp [h1], by simp [List.eraseIdx, h2]⟩

theorem runTask_split (web : Web) (i : Nat) (s s2 : Crawler) (h : runTask web i s = some s2) :
    ∃ l1 l2 url depth, s.tasks = l1 ++ (url, depth) :: l2 ∧
      s2 = { site := (Crawl web url depth s.site).site,
             tasks := l1 ++ l2 ++ (Crawl web url depth s.site).spawned,
             fetched := s.fetched ++ (Crawl web url depth s.site).fetched } := by
  obtain ⟨t, ht, rfl⟩ := runTask_some web i s s2 h
  obtain ⟨l1, l2, h1, h2⟩ := eraseIdx_split s.tasks i t ht
  exact ⟨l1, l2, t.1, t.2, h1, by rw [h2]⟩

theorem Fetch_cases (web : Web) (url : String) :
    (∃ e, Fetch web url = .error e) ∨ (∃ p, Fetch web url = .ok p) := by
  cases h : Fetch web url with
  | error e => exact Or.inl ⟨e, rfl⟩
  | ok p => exact Or.inr ⟨p, rfl⟩

theorem spawned_depth (web : Web) (url : String) (depth : Int) (site : webSite) :
    ∀ c ∈ (Crawl web url depth site).spawned,
      0 < depth ∧ c.2 = depth - 1 ∧
        ∃ p l, Fetch web url = .ok p ∧ l ∈ p.urlsInDomain ∧ c.1 = resolve site.domain l := by
  intro c hc
  by_cases hd : depth ≤ 0
  · rw [Crawl_done web url depth site hd] at hc; simp at hc
  · have hd2 : 0 < depth := not_le.1 hd
    rcases Fetch_cases web url with ⟨e, hf⟩ | ⟨p, hf⟩
    · rw [Crawl_error web url depth site e hd2 hf] at hc; simp at hc
    · rw [Crawl_ok web url depth site p hd2 hf] at hc
      simp only [fanOut_spawned, List.mem_map, mem_firstOccurrences, List.mem_filter] at hc
      obtain ⟨u, ⟨⟨l, hl, rfl⟩, -⟩, rfl⟩ := hc
      exact ⟨hd2, rfl, p, l, hf, hl, rfl⟩

theorem Crawl_domain (web : Web) (url : String) (depth : Int) (site : webSite) :
    (Crawl web url depth site).site.domain = site.domain := by
  by_cases hd : depth ≤ 0
  · rw [Crawl_done web url depth site hd]
  · have hd2 : 0 < depth := not_le.1 hd
    rcases Fetch_cases web url with ⟨e, hf⟩ | ⟨p, hf⟩
    · rw [Crawl_error web url depth site e hd2 hf]
    · rw [Crawl_ok web url depth site p hd2 hf]

theorem Crawl_pages (web : Web) (url : String) (depth : Int) (site : webSite) (u : String)
    (h : (Crawl web url depth site).site.pages u ≠ none) :
    site.pages u ≠ none ∨ (u = url ∧ 0 < depth) := by
  by_cases hd : depth ≤ 0
  · rw [Crawl_done web url depth site hd] at h; exact Or.inl h
  · have hd2 : 0 < depth := not_le.1 hd
    rcases Fetch_cases web url with ⟨e, hf⟩ | ⟨p, hf⟩
    · rw [Crawl_error web url depth site e hd2 hf] at h; exact Or.inl h
    · rw [Crawl_ok web url depth site p hd2 hf] at h
      by_cases hu : u = url
      · exact Or.inr ⟨hu, hd2⟩
      · left; simpa [mapSet, hu] using h

theorem bounded_step (web : Web) (domain : String) (D : Int) (s s2 : Crawler)
    (hs : Bounded web domain D s) (hstep : Step web s s2) : Bounded web domain D s2 := by
  obtain ⟨i, hi⟩ := hstep
  obtain ⟨l1, l2, url, depth, htasks, rfl⟩ := runTask_split web i s s2 hi
  have hmem : (url, depth) ∈ s.tasks := by rw [htasks]; simp
  obtain ⟨k, hk, hhops⟩ := hs.tasks _ hmem
  refine ⟨by rw [Crawl_domain]; exact hs.dom, ?_, ?_⟩
  · intro t ht
    simp only [List.mem_append] at ht
    rcases ht with (ht | ht) | ht
    · exact hs.tasks t (by rw [htasks]; simp [ht])
    · exact hs.tasks t (by rw [htasks]; simp [ht])
    · obtain ⟨hd, h2, p, l, hf, hl, h1⟩ := spawned_depth web url depth s.site t ht
      refine ⟨k + 1, ?_, ?_⟩
      · rw [h2]; simp only at hk; rw [hk]; push_cast; ring
      · rw [h1, hs.dom]
        exact Hops.link k url p l hhops hf hl
  · intro u hu
    rcases Crawl_pages web url depth s.site u hu with h | ⟨rfl, hd⟩
    · exact hs.pages u h
    · exact ⟨k, by simp only at hk; omega, hhops⟩

theorem bounded_reachable (web : Web) (domain : String) (D : Int) (s : Crawler)
    (h : Reachable web (start domain D) s) : Bounded web domain D s := by
  induction h with
  | refl =>
    refine ⟨rfl, ?_, fun u hu => absurd rfl hu⟩
    intro t ht
    simp only [start, List.mem_singleton] at ht
    subst ht
    exact ⟨0, by simp, Hops.seed⟩
  | tail _ hstep ih => exact bounded_step web domain D _ _ ih hstep

theorem budget_step (web : Web) (s s2 : Crawler) (hstep : Step web s s2) :
    Relation.CutExpand (fun a b : Nat => a < b) (budget s2) (budget s) := by
  obtain ⟨i, hi⟩ := hstep
  obtain ⟨l1, l2, url, depth, htasks, rfl⟩ := runTask_split web i s s2 hi
  refine ⟨((Crawl web url depth s.site).spawned.map (fun t => t.2.toNat) : List Nat),
    depth.toNat, ?_, ?_⟩
  · intro a ha
    simp only [Multiset.mem_coe, List.mem_map] at ha
    obtain ⟨c, hc, rfl⟩ := ha
    obtain ⟨hd, h2, -⟩ := spawned_depth web url depth s.site c hc
    rw [h2]; omega
  · simp only [budget, htasks, List.map_append, List.map_cons, ← Multiset.coe_add,
      ← Multiset.cons_coe, ← Multiset.singleton_add]
    abel

theorem step_wellFounded (web : Web) : WellFounded (fun s2 s1 : Crawler => Step web s1 s2) := by
  have hwf : WellFounded (Relation.CutExpand (fun a b : Nat => a < b)) :=
    WellFounded.cutExpand Nat.lt_wfRel.wf
  exact Subrelation.wf (fun {a b} h => budget_step web b a h) (InvImage.wf budget hwf)

/-- C9: in a crawl started on a seed with depth `D`, every recorded URL is
reachable from the seed by a chain of `k` in-domain links with `k ≤ D`, and the
depth `D - k` at which it was recorded is positive; a pending task `k` links
away carries depth `D - k`; every child carries a strictly smaller depth than
its parent; and every interleaving of the crawl terminates. -/
theorem C9_depth_bound (web : Web) (domain : String) (D : Int) (s : Crawler)
    (h : Reachable web (start domain D) s) :
    (∀ u, s.site.pages u ≠ none →
      ∃ k : Nat, (k : Int) ≤ D ∧ 0 < D - k ∧ Hops web domain k u) ∧
    (∀ t ∈ s.tasks, ∃ k : Nat, t.2 = D - k ∧ Hops web domain k t.1) ∧
    (∀ t ∈ s.tasks, ∀ c ∈ (Crawl web t.1 t.2 s.site).spawned, c.2 < t.2) ∧
    Acc (fun s2 s1 : Crawler => Step web s1 s2) s := by
  have hb := bounded_reachable web domain D s h
  refine ⟨?_, hb.tasks, ?_, (step_wellFounded web).apply s⟩
  · intro u hu
    obtain ⟨k, hk, hh⟩ := hb.pages u hu
    exact ⟨k, by omega, by omega, hh⟩
  · intro t _ c hc
    obtain ⟨-, h2, -⟩ := spawned_depth web t.1 t.2 s.site c hc
    omega

/-- C9, an instance: after the schedule seed, `bb`, `cc`, `bb` on `sampleWeb` with
depth 3, the recorded URL `cc` is at most 3 links from the seed. -/
theorem C9_depth_bound_witness :
    (runSchedule sampleWeb [0, 0, 0, 0] mainStart).site.pages "https://golang.org/cc" ≠ none ∧
    ∃ k : Nat, (k : Int) ≤ 3 ∧ 0 < (3 : Int) - k ∧
      Hops sampleWeb "https://golang.org/" k "https://golang.org/cc" :=
  ⟨by decide,
    (C9_depth_bound sampleWeb "https://golang.org/" 3 _
      (reachable_runSchedule sampleWeb [0, 0, 0, 0] _ _ Relation.ReflTransGen.refl)).1
        "https://golang.org/cc" (by decide)⟩

theorem nodup_firstOccurrences (l : List String) : (firstOccurrences l).Nodup := by
  induction l with
  | nil => exact List.nodup_nil
  | cons x xs ih =>
    simp only [firstOccurrences, List.nodup_cons, List.mem_filter, decide_eq_true_eq]
    exact ⟨fun h => h.2 rfl, ih.filter _⟩

theorem liveTask_split (web : Web) (i : Nat) (x y : Live) (h : liveTask web i x = some y) :
    ∃ l1 l2 url depth, x.crawler.tasks = l1 ++ (url, depth) :: l2 ∧
      y = { crawler :=
              { site := (Crawl web url depth x.crawler.site).site,
                tasks := l1 ++ l2 ++ (Crawl web url depth x.crawler.site).spawned,
                fetched := x.crawler.fetched ++ (Crawl web url depth x.crawler.site).fetched },
            events := x.events ++
              (Crawl web url depth x.crawler.site).fetched.map
                (fun u => (u, succeeded (Fetch web u))) } := by
  unfold liveTask runTask at h
  cases ht : x.crawler.tasks[i]? with
  | none => simp [ht] at h
  | some t =>
    simp only [ht, Option.some.injEq] at h
    obtain ⟨l1, l2, h1, h2⟩ := eraseIdx_split x.crawler.tasks i t ht
    refine ⟨l1, l2, t.1, t.2, h1, ?_⟩
    rw [← h2]
    exact h.symm

theorem liveReachable_liveRun (sched : List (Web × Nat)) (x0 x : Live)
    (h : LiveReachable x0 x) : LiveReachable x0 (liveRun sched x) := by
  induction sched generalizing x with
  | nil => exact h
  | cons c rest ih =>
    unfold liveRun
    cases hr : liveTask c.1 c.2 x with
    | none => exact ih x h
    | some y => exact ih y (Relation.ReflTransGen.tail h ⟨c.1, c.2, hr⟩)

theorem last_snoc (ev : List (String × Bool)) (url : String) (c : Bool)
    (hlast : ∀ u e1 e2, ev = e1 ++ (u, true) :: e2 → ∀ b, (u, b) ∉ e2)
    (hnew : (url, true) ∉ ev) :
    ∀ u e1 e2, ev ++ [(url, c)] = e1 ++ (u, true) :: e2 → ∀ b, (u, b) ∉ e2 := by
  intro u e1 e2 h b hb
  rcases List.eq_nil_or_concat e2 with rfl | ⟨e3, a, he⟩
  · simp at hb
  · rw [List.concat_eq_append] at he
    subst he
    have h2 : ev ++ [(url, c)] = (e1 ++ (u, true) :: e3) ++ [a] := by
      rw [h]; simp
    obtain ⟨h3, h4⟩ := List.append_inj' h2 rfl
    have hu : (u, true) ∈ ev := by rw [h3]; simp
    have hne : u ≠ url := by
      rintro rfl
      exact hnew hu
    rcases List.mem_append.1 hb with hb | hb
    · exact hlast u e1 e3 h3 b hb
    · simp only [List.mem_singleton] at hb
      simp only [List.cons.injEq, and_true] at h4
      rw [← h4] at hb
      exact hne (congrArg Prod.fst hb)

theorem settled_step (domain : String) (D : Int) (x y : Live)
    (hs : Settled domain D x) (hstep : LiveStep x y) : Settled domain D y := by
  obtain ⟨web, i, hi⟩ := hstep
  obtain ⟨l1, l2, url, depth, htasks, rfl⟩ := liveTask_split web i x y hi
  have hnd := hs.nodup
  rw [htasks] at hnd
  simp only [List.map_append, List.map_cons] at hnd
  have hnd2 : ((l1 ++ l2).map Prod.fst).Nodup := by
    rw [List.map_append]
    exact (List.nodup_cons.1 (List.nodup_middle.1 hnd)).2
  have hurl : url ∉ (l1 ++ l2).map Prod.fst := by
    rw [List.map_append]
    exact (List.nodup_cons.1 (List.nodup_middle.1 hnd)).1
  -- the tasks that stay pending hold a `false` entry under a URL other than `url`
  have hold : ∀ t ∈ l1 ++ l2,
      x.crawler.site.urlsInDomain.urls t.1 = some false ∧ t.1 ≠ url := by
    intro t ht
    have hne : t.1 ≠ url := fun h => hurl (h ▸ List.mem_map_of_mem Prod.fst ht)
    rcases hs.pend with ⟨-, h1⟩ | h1
    · rw [h1] at htasks
      have hl := congrArg List.length htasks
      simp at hl
      have h11 : l1 = [] := List.length_eq_zero.1 (by omega)
      have h12 : l2 = [] := List.length_eq_zero.1 (by omega)
      rw [h11, h12] at ht
      simp at ht
    · refine ⟨h1 t ?_, hne⟩
      rw [htasks]
      simp only [List.mem_append, List.mem_cons] at ht ⊢
      tauto
  -- the URL of the task that runs has no successful fetch behind it
  have hfresh : (url, true) ∉ x.events := by
    intro hmem
    rcases hs.pend with ⟨h0, -⟩ | h1
    · rw [h0] at hmem; simp at hmem
    · have hfalse := h1 (url, depth) (by rw [htasks]; simp)
      have htrue := hs.done url hmem
      simp only at hfalse
      rw [hfalse] at htrue
      simp at htrue
  have hdone : ∀ u, (u, true) ∈ x.events →
      x.crawler.site.urlsInDomain.urls u = some true ∧ u ≠ url := by
    intro u hu
    refine ⟨hs.done u hu, ?_⟩
    rintro rfl
    exact hfresh hu
  by_cases hd : depth ≤ 0
  · rw [Crawl_done web url depth x.crawler.site hd]
    refine ⟨Or.inr fun t ht => (hold t (by simpa using ht)).1, by simpa using hnd2, ?_, ?_, ?_⟩
    · simpa using hs.done
    · simpa using hs.last
    · simpa using hs.once
  · have hd2 : 0 < depth := not_le.1 hd
    rcases Fetch_cases web url with ⟨e, hf⟩ | ⟨p, hf⟩
    · rw [Crawl_error web url depth x.crawler.site e hd2 hf]
      refine ⟨Or.inr fun t ht => ?_, by simpa using hnd2, ?_, ?_, ?_⟩
      · have := hold t (by simpa using ht)
        simpa [mapDelete, this.2] using this.1
      · intro u hu
        simp only [List.map_cons, List.map_nil, hf, succeeded, List.mem_append,
          List.mem_singleton, Prod.mk.injEq, Bool.true_eq_false, and_false, or_false] at hu
        have := hdone u hu
        simpa [mapDelete, this.2] using this.1
      · simpa [hf, succeeded] using last_snoc x.events url false hs.last hfresh
      · intro u
        simpa [hf, succeeded, List.count_append, List.count_singleton] using hs.once u
    · rw [Crawl_ok web url depth x.crawler.site p hd2 hf]
      refine ⟨Or.inr fun t ht => ?_, ?_, ?_, ?_, ?_⟩
      · show (fanOut x.crawler.site.domain depth p.urlsInDomain
          (mapSet x.crawler.site.urlsInDomain.urls url true)).1 t.1 = some false
        rw [fanOut_urls]
        rcases List.mem_append.1 ht with ht | ht
        · have := hold t ht
          simp [mapSet, this.2, this.1]
        · simp only [fanOut_spawned, List.mem_map, mem_firstOccurrences, List.mem_filter] at ht
          obtain ⟨u, ⟨hu1, hu2⟩, rfl⟩ := ht
          rw [Option.isNone_iff_eq_none] at hu2
          simp only [hu2]
          rw [if_pos (List.mem_map.2 hu1)]
      · show ((l1 ++ l2 ++ (fanOut x.crawler.site.domain depth p.urlsInDomain
          (mapSet x.crawler.site.urlsInDomain.urls url true)).2).map Prod.fst).Nodup
        rw [List.map_append, fanOut_spawned, List.map_map]
        have hid : (Prod.fst ∘ fun u : String => (u, depth - 1)) = id := rfl
        rw [hid, List.map_id]
        refine List.Nodup.append hnd2 (nodup_firstOccurrences _) ?_
        intro u hu1 hu2
        obtain ⟨t, ht, rfl⟩ := List.mem_map.1 hu1
        rw [mem_firstOccurrences, List.mem_filter, Option.isNone_iff_eq_none] at hu2
        have := hold t ht
        simp [mapSet, this.2, this.1] at hu2
      · intro u hu
        show (fanOut x.crawler.site.domain depth p.urlsInDomain
          (mapSet x.crawler.site.urlsInDomain.urls url true)).1 u = some true
        rw [fanOut_urls]
        by_cases hne : u = url
        · subst hne; simp [mapSet]
        · simp only [List.map_cons, List.map_nil, hf, succeeded, List.mem_append,
            List.mem_singleton, Prod.mk.injEq, and_true, hne, or_false] at hu
          simp [mapSet, hne, hs.done u hu]
      · simpa [hf, succeeded] using last_snoc x.events url true hs.last hfresh
      · intro u
        by_cases hne : url = u
        · subst hne
          have := List.count_eq_zero.2 hfresh
          simp [hf, succeeded, List.count_append, this]
        · have := hs.once u
          simpa [hf, succeeded, List.count_append, List.count_singleton, hne] using this

theorem settled_reachable (domain : String) (D : Int) (x : Live)
    (h : LiveReachable (liveStart domain D) x) : Settled domain D x := by
  induction h with
  | refl =>
    exact ⟨Or.inl ⟨rfl, rfl⟩, by simp [liveStart, start], fun u hu => by simp [liveStart] at hu,
      fun u e1 e2 he => by simp [liveStart] at he, fun u => by simp [liveStart]⟩
  | tail _ hstep ih => exact settled_step domain D _ _ ih hstep

/-- C8 (as amended): in every state of a crawl started from the empty site,
under any interleaving and however the web changes between fetches, no two
pending tasks carry the same URL, no `Fetch` call on a URL follows a successful
`Fetch` call on that URL, and a URL has at most one successful `Fetch` call. -/
theorem C8_no_fetch_after_success (domain : String) (D : Int) (x : Live)
    (h : LiveReachable (liveStart domain D) x) :
    (x.crawler.tasks.map Prod.fst).Nodup ∧
    (∀ u e1 e2, x.events = e1 ++ (u, true) :: e2 → ∀ b, (u, b) ∉ e2) ∧
    (∀ u, x.events.count (u, true) ≤ 1) :=
  ⟨(settled_reachable domain D x h).nodup, (settled_reachable domain D x h).last,
    (settled_reachable domain D x h).once⟩

/-- C8, an instance: `bb` fails on `sampleWeb`, is rediscovered by `cc` and then
succeeds on `repairedWeb`; the history has two fetches of `bb`, the failed one
first, and nothing on `cc` after its successful fetch. -/
theorem C8_no_fetch_after_success_witness :
    (liveRun [(sampleWeb, 0), (sampleWeb, 0), (sampleWeb, 0), (repairedWeb, 0)] mainLive).events =
      [("https://golang.org/", true), ("https://golang.org/bb", false)] ++
        ("https://golang.org/cc", true) :: [("https://golang.org/bb", true)] ∧
    ∀ b, ("https://golang.org/cc", b) ∉ [("https://golang.org/bb", true)] :=
  ⟨by decide,
    (C8_no_fetch_after_success "https://golang.org/" 3 _
      (liveReachable_liveRun
        [(sampleWeb, 0), (sampleWeb, 0), (sampleWeb, 0), (repairedWeb, 0)] _ _
        Relation.ReflTransGen.refl)).2.1 "https://golang.org/cc"
      [("https://golang.org/", true), ("https://golang.org/bb", false)]
      [("https://golang.org/bb", true)] (by decide)⟩

/-- C8 as stated fails: on `sampleWeb`, started as `main` does, the interleaving
seed, `bb`, `cc`, `bb` is a run of the crawl in which `bb` is fetched twice: its
first fetch fails and removes it from the registry, and the page of `cc` then
discovers it again. -/
theorem C8_failed_url_fetched_twice :
    Reachable sampleWeb mainStart (runSchedule sampleWeb [0, 0, 0, 0] mainStart) ∧
    (runSchedule sampleWeb [0, 0, 0, 0] mainStart).fetched =
      ["https://golang.org/", "https://golang.org/bb", "https://golang.org/cc",
        "https://golang.org/bb"] ∧
    (runSchedule sampleWeb [0, 0, 0, 0] mainStart).fetched.count "https://golang.org/bb" = 2 ∧
    (liveRun [(sampleWeb, 0), (sampleWeb, 0), (sampleWeb, 0), (sampleWeb, 0)] mainLive).events =
      [("https://golang.org/", true), ("https://golang.org/bb", false),
        ("https://golang.org/cc", true), ("https://golang.org/bb", false)] :=
  ⟨reachable_runSchedule sampleWeb [0, 0, 0, 0] _ _ Relation.ReflTransGen.refl,
    by decide, by decide, by decide⟩

end GoCrawler
